import Mathlib

/-!
Verification of the Stavue store manager (src/src/store.ts) via a shallow
embedding in Lean 4.

The embedding follows the source file function by function:

- association lists with JS property semantics (insertion order kept,
  assignment replaces in place, delete removes the key) model plain
  JavaScript objects and the registry Map;
- a small heap (address to object) models object identity, so that
  structuredClone, Object.assign reference sharing and mutation of nested
  objects are represented faithfully;
- the subscription bookkeeping of setupStore (the _subscriptions array and
  the _stopWatcher handle) is modelled by SubState with the push, indexOf
  and splice semantics of the source;
- the Vue reactivity contract used by the code (reactive proxy writes
  trigger a deep sync-flush watcher once per mutating operation, only when
  the written value actually changes) is modelled by the event-emitting
  state operations.
-/

/-! ## Association lists: JS object property access -/

/-- JS property read: first (hence, for nodup keys, only) binding wins. -/
def getA {κ α : Type} [DecidableEq κ] : List (κ × α) → κ → Option α
  | [], _ => none
  | (k', v) :: t, k => if k' = k then some v else getA t k

/-- JS property write: replace in place, keeping insertion order, else append
at the end (JS object key order semantics, also Map.set). -/
def setA {κ α : Type} [DecidableEq κ] : List (κ × α) → κ → α → List (κ × α)
  | [], k, v => [(k, v)]
  | (k', v') :: t, k, v => if k' = k then (k, v) :: t else (k', v') :: setA t k v

/-- JS delete operator: removes the binding of the key. -/
def delA {κ α : Type} [DecidableEq κ] : List (κ × α) → κ → List (κ × α)
  | [], _ => []
  | (k', v') :: t, k => if k' = k then t else (k', v') :: delA t k

/-! ## Subscription bookkeeping (store.ts lines 109-153)

Callbacks are identified by a number (function identity); _subscriptions is
the list, _stopWatcher the Bool. -/

structure SubState where
  subs : List Nat
  watcher : Bool
deriving DecidableEq, Repr

/-- Source lines 122-137: push the callback; install the watcher when none is
installed yet (the push makes the list nonempty either way). -/
def subscribeOp (cb : Nat) (s : SubState) : SubState :=
  { subs := s.subs ++ [cb], watcher := true }

/-- Splice at indexOf: removes the first occurrence (source line 143). -/
def removeFirst (cb : Nat) : List Nat → List Nat
  | [] => []
  | x :: t => if x = cb then t else x :: removeFirst cb t

/-- Number of registrations of a callback in the list. -/
def countOcc (cb : Nat) : List Nat → Nat
  | [] => 0
  | x :: t => (if x = cb then 1 else 0) + countOcc cb t

/-- Source lines 139-150: indexOf finds the callback (membership), splice
removes that first occurrence, and when the list became empty and a watcher
is installed it is stopped and cleared. -/
def unsubscribeOp (cb : Nat) (s : SubState) : SubState :=
  if cb ∈ s.subs then
    let subs' := removeFirst cb s.subs
    { subs := subs',
      watcher := if subs' = [] ∧ s.watcher = true then false else s.watcher }
  else s

/-- Calls of $subscribe and of the returned unsubscribe closures, in order. -/
inductive SubOp where
  | sub (cb : Nat)
  | unsub (cb : Nat)
deriving DecidableEq, Repr

def applyOp (op : SubOp) (s : SubState) : SubState :=
  match op with
  | .sub cb => subscribeOp cb s
  | .unsub cb => unsubscribeOp cb s

/-- A store starts with no subscriptions and no watcher (source lines
109-110); any sequence of subscription operations runs from there. -/
def runOps (ops : List SubOp) : SubState :=
  ops.foldl (fun s op => applyOp op s) ⟨[], false⟩

/-! ## Registry and lookup (defineStore/useStore, store.ts lines 58-84)

The registry world carries the per-application Stavue state the lookup path
touches, plus effect counters for the observable side effects of one
assembly: state-factory invocations, plugin invocations and created
observable handles. Store instances are identified by allocation number, so
reference identity is identity of that number. -/

structure RegWorld where
  registry : List (String × Nat)
  nextInst : Nat
  factoryCalls : Nat
  pluginRuns : Nat
  handleCount : Nat
deriving DecidableEq, Repr

/-- One run of setupStore (lines 90-181) as the registry sees it: a fresh
instance is allocated, the state factory runs once, each of the pl plugins
runs once, and one observable handle per state field (ks many) is created;
useStore then stores the instance under the id (line 77). -/
def registerStore (id : String) (pl ks : Nat) (w : RegWorld) : RegWorld :=
  { registry := setA w.registry id w.nextInst
    nextInst := w.nextInst + 1
    factoryCalls := w.factoryCalls + 1
    pluginRuns := w.pluginRuns + pl
    handleCount := w.handleCount + ks }

/-- Source lines 66-81 with the possibility that setupStore throws at the
state-factory call (line 104): when the id is cached the cached instance is
returned with no side effects; otherwise assembly runs, and on failure the
exception propagates before the registry set on line 77 executes. -/
def useStoreF (id : String) (fac : Except String Unit) (pl ks : Nat)
    (w : RegWorld) : RegWorld × Except String (Option Nat) :=
  if (getA w.registry id).isSome then (w, .ok (getA w.registry id))
  else
    match fac with
    | .error e => (w, .error e)
    | .ok _ =>
      let w' := registerStore id pl ks w
      (w', .ok (getA w'.registry id))

/-- The non-throwing lookup path of useStore (lines 75-80). -/
def useStore (id : String) (pl ks : Nat) (w : RegWorld) :
    RegWorld × Option Nat :=
  if (getA w.registry id).isSome then (w, getA w.registry id)
  else
    let w' := registerStore id pl ks w
    (w', getA w'.registry id)

/-- n successive useStore calls for the same id, keeping the final world. -/
def callN (id : String) (pl ks : Nat) : Nat → RegWorld → RegWorld
  | 0, w => w
  | n + 1, w => callN id pl ks n (useStore id pl ks w).1

/-! ## JS values, heaps and the store state (setupStore, store.ts 90-181)

A JS value is a primitive or a reference into the heap; the heap maps
addresses to objects. Object identity and reference sharing (what
structuredClone, Object.assign and the Vue proxies do with nested objects)
are explicit. -/

inductive JVal where
  | num (n : Int)
  | str (s : String)
  | addr (a : Nat)
deriving DecidableEq, Repr

/-- An object: ordered own properties. -/
abbrev JObj := List (String × JVal)

/-- A heap fragment: addresses to objects. -/
abbrev JHeap := List (Nat × JObj)

mutual

/-- Fields of a literal object tree. -/
inductive VFields where
  | nil
  | cons (k : String) (v : VTree) (rest : VFields)

/-- Literal object trees, the shape a state factory returns. -/
inductive VTree where
  | num (n : Int)
  | str (s : String)
  | obj (fs : VFields)

end

mutual

/-- Materialise a literal tree in the heap, allocating a fresh address for
every object node: this is both what evaluating the state factory literal
does and what structuredClone of such an object produces (a deep,
reference-independent copy). -/
def loadV : VTree → JHeap → Nat → JVal × JHeap × Nat
  | .num n, h, c => (.num n, h, c)
  | .str s, h, c => (.str s, h, c)
  | .obj fs, h, c =>
    let a := c
    let r := loadFs fs h (c + 1)
    (.addr a, r.2.1 ++ [(a, r.1)], r.2.2)

/-- Materialise the fields of a literal object node. -/
def loadFs : VFields → JHeap → Nat → JObj × JHeap × Nat
  | .nil, h, c => ([], h, c)
  | .cons k v rest, h, c =>
    let r1 := loadV v h c
    let r2 := loadFs rest r1.2.1 r1.2.2
    ((k, r1.1) :: r2.1, r2.2.1, r2.2.2)

end

/-! ## Instance assembly (store.ts lines 16-49 and 156-167)

The store instance is a plain object; its property values record which
namespace wrote them last. The assembly order is the source order: bound
actions, then the plain state mirror, then the toRefs handles, then the
computed getters, then the two built-in methods. -/

inductive IVal where
  | plain (v : JVal)
  | href (k : String)
  | action (k : String)
  | computedG (k : String)
  | method (k : String)
deriving DecidableEq, Repr

/-- The instance object. -/
abbrev IObj := List (String × IVal)

/-- Lines 156-167: bindActionsToStoreInstance (16-20), then
assignStateToStoreInstance (21-27: Object.assign with the state values, then
Object.assign with the toRefs handles), then bindGettersToStoreInstance
(29-39), then bindMethodsToStoreInstance (41-49) over _methods, whose key
order is $reset then $subscribe (112-153). All writes are plain JS property
assignments, so a later write replaces an earlier one under the same name. -/
def assembleInstance (acts : List String) (stFields : JObj)
    (gets : List String) : IObj :=
  let o1 := acts.foldl (fun o k => setA o k (.action k)) ([] : IObj)
  let o2 := stFields.foldl (fun o kv => setA o kv.1 (.plain kv.2)) o1
  let o3 := stFields.foldl (fun o kv => setA o kv.1 (.href kv.1)) o2
  let o4 := gets.foldl (fun o k => setA o k (.computedG k)) o3
  setA (setA o4 "$reset" (.method "$reset")) "$subscribe" (.method "$subscribe")

/-! ## The live store: reactive state, watcher, notifications

A notification event records the subscriber list it was delivered to (in
registration order, source lines 126-132) and the top-level state object the
callbacks observe at that moment. The watch uses flush sync (line 135), so
every mutating proxy operation that actually changes something runs the
watcher callback immediately, once per operation. -/

structure StoreSt where
  heap : JHeap
  nextAddr : Nat
  stateAddr : Nat
  snapAddr : Nat
  inst : IObj
  subs : List Nat
  watcher : Bool
  notifs : List (List Nat × JObj)
deriving DecidableEq, Repr

def stateObj (s : StoreSt) : JObj := (getA s.heap s.stateAddr).getD []

def snapObj (s : StoreSt) : JObj := (getA s.heap s.snapAddr).getD []

def setStateObj (s : StoreSt) (o : JObj) : StoreSt :=
  { s with heap := setA s.heap s.stateAddr o }

/-- Deliver one change notification: the sync watcher (lines 126-136) calls
every subscribed callback, in registration order, with the live state. -/
def emitEv (s : StoreSt) (st : JObj) : StoreSt :=
  if s.watcher then { s with notifs := s.notifs ++ [(s.subs, st)] } else s

/-- A write to one top-level field of the reactive state (what the
ObjectRefImpl value setter of a toRefs handle performs, and what each key
assignment of Object.assign inside $reset performs). The Vue proxy triggers
watchers only when the written value differs from the old one (hasChanged,
which for references is reference identity). -/
def reactSetSt (s : StoreSt) (k : String) (v : JVal) : StoreSt :=
  if getA (stateObj s) k = some v then s
  else
    let st := setA (stateObj s) k v
    emitEv (setStateObj s st) st

/-- delete reactiveState[key]: triggers only when the key was present. -/
def reactDelSt (s : StoreSt) (k : String) : StoreSt :=
  if getA (stateObj s) k = none then s
  else
    let st := delA (stateObj s) k
    emitEv (setStateObj s st) st

/-- A write to a field of a nested state object, reached through the live
state (for example this.n.value.x = 5 from an action, or state.n.x = 5 in a
getter): it mutates the nested heap object in place; the deep sync watcher
fires when the value changes. -/
def nestedSet (s : StoreSt) (outer inner : String) (v : JVal) : StoreSt :=
  match getA (stateObj s) outer with
  | some (.addr a) =>
    match getA s.heap a with
    | some o =>
      if getA o inner = some v then s
      else
        let s' := { s with heap := setA s.heap a (setA o inner v) }
        emitEv s' (stateObj s')
    | none => s
  | _ => s

/-- A plain property write on the store instance object (instance.k = v in
consumer code): the instance is a plain object (line 95), so the assignment
replaces whatever the property held, toRefs handle included, and touches
neither the reactive state nor any watcher. -/
def instSet (s : StoreSt) (k : String) (v : JVal) : StoreSt :=
  { s with inst := setA s.inst k (.plain v) }

/-- $subscribe (lines 122-137): push the callback and install the watcher if
it is not installed. -/
def subscribeSt (s : StoreSt) (cb : Nat) : StoreSt :=
  { s with subs := s.subs ++ [cb], watcher := true }

/-- One iteration of the delete loop of $reset (lines 114-118): a current
key that is an own property of the snapshot is kept; otherwise it is
deleted, the proxy triggering the sync watcher when the key was present.
The accumulated list holds the state object as observed at each trigger. -/
def deleteStep (snap : JObj) (acc : JObj × List JObj) (k : String) :
    JObj × List JObj :=
  if (getA snap k).isSome then acc
  else if getA acc.1 k = none then acc
  else
    let st' := delA acc.1 k
    (st', acc.2 ++ [st'])

/-- One key assignment of the Object.assign on line 120: the proxy write
triggers only when the value changes. -/
def assignStep (acc : JObj × List JObj) (kv : String × JVal) :
    JObj × List JObj :=
  if getA acc.1 kv.1 = some kv.2 then acc
  else
    let st' := setA acc.1 kv.1 kv.2
    (st', acc.2 ++ [st'])

/-- The full mutation sequence of $reset against the state object: delete
every current key that is not an own property of the snapshot, then assign
every snapshot field over the state. -/
def resetObj (snap st : JObj) : JObj × List JObj :=
  let ks := st.map Prod.fst
  let p1 := ks.foldl (deleteStep snap) (st, [])
  snap.foldl assignStep p1

/-- $reset on the live store: runs the mutation sequence above against the
current state and snapshot objects (the snapshot is a different object than
the state, so its top level is unchanged by these writes), committing the
final state and delivering one notification per trigger to the subscribers
when the watcher is installed. -/
def resetStoreSt (s : StoreSt) : StoreSt :=
  let r := resetObj (snapObj s) (stateObj s)
  let s' := setStateObj s r.1
  if s.watcher then
    { s' with notifs := s.notifs ++ r.2.map (fun o => (s.subs, o)) }
  else s'

/-- Count of the reset assignments that actually change a state value. -/
def countChanged (st : JObj) : JObj → Nat
  | [] => 0
  | (k, v) :: rest =>
    (if getA st k = some v then 0 else 1) + countChanged st rest

/-- Count of the live state keys the reset delete loop removes: the keys
that are not own properties of the snapshot. -/
def countRemoved (snap : JObj) : List String → Nat
  | [] => 0
  | k :: t => (if (getA snap k).isSome then 0 else 1) + countRemoved snap t

/-- setupStore (lines 90-181) for a definition with the given literal state
factory, action names and getter names: evaluate the factory once
(line 104), structuredClone the result into the default snapshot (line 106,
modelled by materialising the same literal at fresh addresses, which is
exactly a deep reference-independent copy of the just-created value), wrap
the initial state object reactively in place (line 107), assemble the
instance, and start with no subscriptions and no watcher (lines 109-110). -/
def mkStore (stateFs : VFields) (acts gets : List String) : StoreSt :=
  let r1 := loadV (.obj stateFs) [] 0
  let r2 := loadV (.obj stateFs) r1.2.1 r1.2.2
  let a0 := match r1.1 with | .addr a => a | _ => 0
  let a1 := match r2.1 with | .addr a => a | _ => 0
  let stFields := (getA r2.2.1 a0).getD []
  { heap := r2.2.1
    nextAddr := r2.2.2
    stateAddr := a0
    snapAddr := a1
    inst := assembleInstance acts stFields gets
    subs := []
    watcher := false
    notifs := [] }

/-- Read a field of a nested object: state-or-snapshot address, outer key to
the nested reference, inner key inside it. -/
def readNested (h : JHeap) (a : Nat) (outer inner : String) : Option JVal :=
  match (getA h a).bind (fun o => getA o outer) with
  | some (.addr b) => (getA h b).bind (fun o => getA o inner)
  | _ => none

/-! ## Plugin pipeline (store.ts lines 169-178)

Each iteration of the forEach evaluates a fresh context object literal; the
context records the allocation number of that literal (object identity), the
shared store instance reference, and the store id. -/

structure PCall where
  pname : String
  ctxId : Nat
  storeRef : Nat
  sid : String
deriving DecidableEq, Repr

/-- plugins.forEach: call each plugin in list order, passing a freshly
allocated context object whose store, id (and options, app) fields are the
same values every time. -/
def runPlugins (plugins : List String) (storeRef : Nat) (sid : String)
    (c0 : Nat) : List PCall × Nat :=
  plugins.foldl
    (fun (acc : List PCall × Nat) p =>
      (acc.1 ++ [⟨p, acc.2, storeRef, sid⟩], acc.2 + 1))
    ([], c0)

/-- The consecutive allocation numbers starting at c0: the identities of the
n context object literals the pipeline evaluates. -/
def ctxIds (c0 : Nat) : Nat → List Nat
  | 0 => []
  | n + 1 => c0 :: ctxIds (c0 + 1) n

/-- The observable order of one setupStore run (lines 156-178). -/
inductive SetupEv where
  | actionsWired
  | stateWired
  | gettersWired
  | methodsWired
  | pluginCall (c : PCall)
deriving DecidableEq, Repr

/-- Lines 156-178 in source order: actions, state (mirror and handles),
getters, methods, then the plugin pipeline. -/
def setupTrace (plugins : List String) (storeRef : Nat) (sid : String)
    (c0 : Nat) : List SetupEv :=
  [.actionsWired, .stateWired, .gettersWired, .methodsWired]
    ++ (runPlugins plugins storeRef sid c0).1.map .pluginCall

/-! ## Concrete scenario stores -/

/-- The literal fields a:1, b:2. -/
def vfAB : VFields := .cons "a" (.num 1) (.cons "b" (.num 2) .nil)

/-- The literal field a:1. -/
def vfA : VFields := .cons "a" (.num 1) .nil

/-- The literal field n holding the nested object x:1. -/
def vfNested : VFields := .cons "n" (.obj (.cons "x" (.num 1) .nil)) .nil

/-- The C2 scenario: store over a:1, b:2; instance.a = 99;
instance.newField = the string x; then $reset. -/
def c2Store : StoreSt := mkStore vfAB [] []

def c2Final : StoreSt :=
  resetStoreSt (instSet (instSet c2Store "a" (.num 99)) "newField" (.str "x"))

/-- The C3 scenario: store over n:(x:1); $reset; then a write to the nested
field n.x through the live state; then a second $reset. -/
def c3Store : StoreSt := mkStore vfNested [] []

def c3Mid : StoreSt := nestedSet (resetStoreSt c3Store) "n" "x" (.num 5)

def c3Final : StoreSt := resetStoreSt c3Mid

/-- The C4 scenario: store over a:1; $subscribe a callback; instance.a = 5. -/
def c4Store : StoreSt := subscribeSt (mkStore vfA [] []) 1

def c4Final : StoreSt := instSet c4Store "a" (.num 5)

/-- The C8 scenario: store over a:1, b:2; both fields mutated through their
toRefs handles (before any subscription, so no watcher runs); then one
subscriber; then a single $reset. -/
def c8Store : StoreSt :=
  subscribeSt
    (reactSetSt (reactSetSt (mkStore vfAB [] []) "a" (.num 99)) "b" (.num 98))
    1

def c8Final : StoreSt := resetStoreSt c8Store

/-- The C8 scenario extended with a key the snapshot does not have: code
holding the reactive state (a getter receives it as its argument, a
subscription callback receives it as newState) adds the top-level field
c = 3 through the proxy, so the next $reset must delete it. -/
def c8StoreX : StoreSt := reactSetSt c8Store "c" (.num 3)

/-- A registry world with nothing registered and zeroed counters. -/
def regW0 : RegWorld := ⟨[], 0, 0, 0, 0⟩

/-! ## Lemmas about the subscription model -/

theorem mem_of_countOcc_pos {cb : Nat} {l : List Nat} (h : 0 < countOcc cb l) :
    cb ∈ l := by
  induction l with
  | nil => simp [countOcc] at h
  | cons x t ih =>
    by_cases hx : x = cb
    · subst hx; exact List.mem_cons_self x t
    · simp [countOcc, hx] at h
      exact List.mem_cons_of_mem x (ih h)

theorem countOcc_pos_of_mem {cb : Nat} {l : List Nat} (h : cb ∈ l) :
    0 < countOcc cb l := by
  induction l with
  | nil => cases h
  | cons x t ih =>
    by_cases hx : x = cb
    · simp [countOcc, hx]
    · have ht : cb ∈ t := by
        cases h with
        | head => exact absurd rfl hx
        | tail _ h => exact h
      have hpos := ih ht
      simp only [countOcc, if_neg hx]
      omega

theorem countOcc_removeFirst (cb : Nat) (l : List Nat) (h : cb ∈ l) :
    countOcc cb (removeFirst cb l) = countOcc cb l - 1 := by
  induction l with
  | nil => cases h
  | cons x t ih =>
    by_cases hx : x = cb
    · subst hx; simp [removeFirst, countOcc]
    · have ht : cb ∈ t := by
        cases h with
        | head => exact absurd rfl hx
        | tail _ h => exact h
      have hpos : 0 < countOcc cb t := countOcc_pos_of_mem ht
      simp only [removeFirst, if_neg hx, countOcc]
      rw [ih ht]
      omega

theorem countOcc_eq_zero_iff (cb : Nat) (l : List Nat) :
    countOcc cb l = 0 ↔ cb ∉ l := by
  induction l with
  | nil => simp [countOcc]
  | cons x t ih =>
    by_cases hx : x = cb
    · subst hx
      simp [countOcc]
    · simp [countOcc, hx, ih, Ne.symm hx]

/-- The watcher invariant (claim C6): installed exactly when subscribers
exist. -/
def subInvariant (s : SubState) : Prop :=
  s.watcher = true ↔ s.subs ≠ []

theorem subInvariant_subscribe (cb : Nat) (s : SubState) :
    subInvariant (subscribeOp cb s) := by
  constructor
  · intro _; simp [subscribeOp]
  · intro _; rfl

theorem subInvariant_unsubscribe (cb : Nat) (s : SubState)
    (h : subInvariant s) : subInvariant (unsubscribeOp cb s) := by
  unfold unsubscribeOp
  by_cases hm : cb ∈ s.subs
  · have hne : s.subs ≠ [] := by
      intro hn; rw [hn] at hm; exact absurd hm (List.not_mem_nil cb)
    have hw : s.watcher = true := h.mpr hne
    simp only [if_pos hm]
    by_cases he : removeFirst cb s.subs = []
    · constructor
      · intro hcontra
        simp [he, hw] at hcontra
      · intro hne'
        exact absurd he hne'
    · constructor
      · intro _; exact he
      · intro _
        simp [he, hw]
  · simp only [if_neg hm]
    exact h

theorem subInvariant_applyOp (op : SubOp) (s : SubState)
    (h : subInvariant s) : subInvariant (applyOp op s) := by
  cases op with
  | sub cb => exact subInvariant_subscribe cb s
  | unsub cb => exact subInvariant_unsubscribe cb s h

theorem subInvariant_foldl (ops : List SubOp) :
    ∀ s : SubState, subInvariant s →
      subInvariant (ops.foldl (fun s op => applyOp op s) s) := by
  induction ops with
  | nil => intro s h; exact h
  | cons op t ih =>
    intro s h
    exact ih (applyOp op s) (subInvariant_applyOp op s h)

/-! ## Lemmas about association lists -/

theorem getA_setA_self {κ α : Type} [DecidableEq κ]
    (l : List (κ × α)) (k : κ) (v : α) : getA (setA l k v) k = some v := by
  induction l with
  | nil => simp [setA, getA]
  | cons kv t ih =>
    by_cases h : kv.1 = k
    · simp [setA, getA, h]
    · simp [setA, getA, h, ih]

theorem getA_setA_ne {κ α : Type} [DecidableEq κ]
    (l : List (κ × α)) (k : κ) (v : α) (k' : κ) (h : k' ≠ k) :
    getA (setA l k v) k' = getA l k' := by
  induction l with
  | nil =>
    simp only [setA, getA]
    rw [if_neg (fun he => h he.symm)]
  | cons kv t ih =>
    by_cases hk : kv.1 = k
    · subst hk
      simp only [setA, if_pos rfl, getA]
      rw [if_neg (fun he => h he.symm), if_neg (fun he => h he.symm)]
    · simp only [setA, if_neg hk, getA]
      by_cases hk' : kv.1 = k'
      · rw [if_pos hk', if_pos hk']
      · rw [if_neg hk', if_neg hk', ih]

theorem getA_delA_ne {κ α : Type} [DecidableEq κ]
    (l : List (κ × α)) (k k' : κ) (h : k' ≠ k) :
    getA (delA l k) k' = getA l k' := by
  induction l with
  | nil => rfl
  | cons kv t ih =>
    obtain ⟨k1, v1⟩ := kv
    show getA (if k1 = k then t else (k1, v1) :: delA t k) k'
      = getA ((k1, v1) :: t) k'
    by_cases hk : k1 = k
    · rw [if_pos hk]
      show getA t k' = if k1 = k' then some v1 else getA t k'
      rw [if_neg (fun he => h (he.symm.trans hk))]
    · rw [if_neg hk]
      show (if k1 = k' then some v1 else getA (delA t k) k')
        = if k1 = k' then some v1 else getA t k'
      rw [ih]

theorem getA_isSome_of_mem_keys {κ α : Type} [DecidableEq κ]
    (l : List (κ × α)) (k : κ) (h : k ∈ l.map Prod.fst) :
    (getA l k).isSome := by
  induction l with
  | nil => cases h
  | cons kv t ih =>
    show (if kv.1 = k then some kv.2 else getA t k).isSome
    by_cases hk : kv.1 = k
    · rw [if_pos hk]
      rfl
    · rw [if_neg hk]
      apply ih
      rw [List.map_cons] at h
      rcases List.mem_cons.mp h with h1 | h2
      · exact absurd h1.symm hk
      · exact h2

theorem dropLen_append {α : Type} (l m : List α) :
    (l ++ m).drop l.length = m := by
  induction l with
  | nil => rfl
  | cons x t ih =>
    rw [List.cons_append, List.length_cons, List.drop_succ_cons]
    exact ih

/-! ## Lemmas about the assembly folds -/

theorem getA_foldl_assign_keys (f : String → IVal) (ks : List String) :
    ∀ (o : IObj) (k : String),
      getA (ks.foldl (fun o k => setA o k (f k)) o) k
        = if k ∈ ks then some (f k) else getA o k := by
  induction ks with
  | nil => intro o k; simp
  | cons k0 t ih =>
    intro o k
    rw [List.foldl_cons, ih]
    by_cases ht : k ∈ t
    · rw [if_pos ht, if_pos (List.mem_cons_of_mem k0 ht)]
    · rw [if_neg ht]
      by_cases hk : k = k0
      · subst hk
        rw [getA_setA_self, if_pos (List.mem_cons_self k t)]
      · rw [getA_setA_ne _ _ _ _ hk]
        rw [if_neg (by simp [List.mem_cons, hk, ht])]

theorem getA_foldl_href_keys (xs : JObj) :
    ∀ (o : IObj) (k : String),
      getA (xs.foldl (fun o kv => setA o kv.1 (IVal.href kv.1)) o) k
        = if k ∈ xs.map Prod.fst then some (.href k) else getA o k := by
  induction xs with
  | nil => intro o k; simp
  | cons kv t ih =>
    intro o k
    rw [List.foldl_cons, ih]
    by_cases ht : k ∈ t.map Prod.fst
    · rw [if_pos ht,
        if_pos (by rw [List.map_cons]; exact List.mem_cons_of_mem _ ht)]
    · rw [if_neg ht]
      by_cases hk : k = kv.1
      · subst hk
        rw [getA_setA_self,
          if_pos (by rw [List.map_cons]; exact List.mem_cons_self _ _)]
      · rw [getA_setA_ne _ _ _ _ hk]
        rw [if_neg (by
          rw [List.map_cons]
          intro hm
          rcases List.mem_cons.mp hm with h1 | h2
          · exact hk h1
          · exact ht h2)]

theorem getA_foldl_plain_notmem (xs : JObj) :
    ∀ (o : IObj) (k : String), k ∉ xs.map Prod.fst →
      getA (xs.foldl (fun o kv => setA o kv.1 (IVal.plain kv.2)) o) k
        = getA o k := by
  induction xs with
  | nil => intro o k _; rfl
  | cons kv t ih =>
    intro o k h
    have hk : k ≠ kv.1 := by
      intro he
      exact h (by rw [List.map_cons, he]; exact List.mem_cons_self _ _)
    have ht : k ∉ t.map Prod.fst := by
      intro hm
      exact h (by rw [List.map_cons]; exact List.mem_cons_of_mem _ hm)
    rw [List.foldl_cons, ih _ _ ht, getA_setA_ne _ _ _ _ hk]

/-- C10: on the assembled store instance, the property under a name is the
one assigned last in the fixed assembly order (actions, then plain state
mirrors, then per-field toRefs handles, then computed getters, then the
built-in methods): so the built-in $reset and $subscribe always win, a
computed getter shadows a same-named state field, the toRefs handle of a
state field shadows a same-named action, and the plain state mirror written
before the handles is never the surviving value. -/
theorem assembly_name_precedence (acts gets : List String) (stFields : JObj)
    (k : String) :
    getA (assembleInstance acts stFields gets) k
      = if k = "$subscribe" then some (.method "$subscribe")
        else if k = "$reset" then some (.method "$reset")
        else if k ∈ gets then some (.computedG k)
        else if k ∈ stFields.map Prod.fst then some (.href k)
        else if k ∈ acts then some (.action k)
        else none := by
  unfold assembleInstance
  by_cases h1 : k = "$subscribe"
  · subst h1
    rw [getA_setA_self, if_pos rfl]
  · rw [getA_setA_ne _ _ _ _ h1, if_neg h1]
    by_cases h2 : k = "$reset"
    · subst h2
      rw [getA_setA_self, if_pos rfl]
    · rw [getA_setA_ne _ _ _ _ h2, if_neg h2]
      rw [getA_foldl_assign_keys IVal.computedG gets]
      by_cases h3 : k ∈ gets
      · rw [if_pos h3, if_pos h3]
      · rw [if_neg h3, if_neg h3]
        rw [getA_foldl_href_keys stFields]
        by_cases h4 : k ∈ stFields.map Prod.fst
        · rw [if_pos h4, if_pos h4]
        · rw [if_neg h4, if_neg h4]
          rw [getA_foldl_plain_notmem stFields _ _ h4]
          rw [getA_foldl_assign_keys IVal.action acts]
          by_cases h5 : k ∈ acts
          · rw [if_pos h5, if_pos h5]
          · rw [if_neg h5, if_neg h5]
            rfl

/-! ## Lemmas about the registry -/

theorem useStore_cached (id : String) (pl ks : Nat) (w : RegWorld) (i : Nat)
    (h : getA w.registry id = some i) : useStore id pl ks w = (w, some i) := by
  unfold useStore
  rw [h]
  rfl

theorem registerStore_lookup (id : String) (pl ks : Nat) (w : RegWorld) :
    getA (registerStore id pl ks w).registry id = some w.nextInst := by
  unfold registerStore
  exact getA_setA_self w.registry id w.nextInst

theorem useStore_fresh (id : String) (pl ks : Nat) (w : RegWorld)
    (h : getA w.registry id = none) :
    useStore id pl ks w = (registerStore id pl ks w, some w.nextInst) := by
  unfold useStore
  rw [h]
  simp only [Option.isSome_none, Bool.false_eq_true, if_false]
  rw [registerStore_lookup]

theorem callN_cached (id : String) (pl ks : Nat) (w : RegWorld) (i : Nat)
    (h : getA w.registry id = some i) :
    ∀ n, callN id pl ks n w = w := by
  intro n
  induction n with
  | zero => rfl
  | succ n ih =>
    show callN id pl ks n (useStore id pl ks w).1 = w
    rw [useStore_cached id pl ks w i h]
    exact ih

/-- C1: for every store identifier and registry world where the identifier
is not yet registered, the first useStore call registers and returns the
freshly allocated instance; every later call (any number of them) returns
the reference-identical instance and leaves the world untouched, so the
state factory runs exactly once, the plugins run exactly once each, and no
further observable handles are created across any number of lookups. -/
theorem useStore_singleton_assembly (id : String) (pl ks : Nat)
    (w : RegWorld) (h : getA w.registry id = none) :
    (useStore id pl ks w).2 = some w.nextInst
    ∧ (∀ n, callN id pl ks n (useStore id pl ks w).1 = (useStore id pl ks w).1)
    ∧ (∀ n, (useStore id pl ks (callN id pl ks n (useStore id pl ks w).1)).2
        = some w.nextInst)
    ∧ (useStore id pl ks w).1.factoryCalls = w.factoryCalls + 1
    ∧ (useStore id pl ks w).1.pluginRuns = w.pluginRuns + pl
    ∧ (useStore id pl ks w).1.handleCount = w.handleCount + ks := by
  have hf := useStore_fresh id pl ks w h
  have hlook := registerStore_lookup id pl ks w
  have hfix : ∀ n, callN id pl ks n (useStore id pl ks w).1
      = (useStore id pl ks w).1 := by
    intro n
    rw [hf]
    exact callN_cached id pl ks _ _ hlook n
  refine ⟨by rw [hf], hfix, ?_, ?_, ?_, ?_⟩
  · intro n
    rw [hfix n, hf]
    rw [useStore_cached id pl ks _ _ hlook]
  · rw [hf]; rfl
  · rw [hf]; rfl
  · rw [hf]; rfl

/-- Closed instantiation of the C1 theorem at a concrete world: id counter,
two plugins, three state fields, the empty registry. -/
theorem useStore_singleton_assembly_witness :
    (useStore "counter" 2 3 regW0).2 = some 0
    ∧ (useStore "counter" 2 3
        (callN "counter" 2 3 5 (useStore "counter" 2 3 regW0).1)).2 = some 0
    ∧ (useStore "counter" 2 3 regW0).1.factoryCalls = 1
    ∧ (useStore "counter" 2 3 regW0).1.pluginRuns = 2
    ∧ (useStore "counter" 2 3 regW0).1.handleCount = 3 := by
  have h := useStore_singleton_assembly "counter" 2 3 regW0 rfl
  exact ⟨h.1, h.2.2.1 5, h.2.2.2.1, h.2.2.2.2.1, h.2.2.2.2.2⟩

/-- C5: when assembly throws at the state factory during the first useStore
call for an identifier, the exception propagates to the caller and the
world, registry included, is unchanged, so no entry exists for the
identifier; a subsequent call for the same identifier with a no-longer
throwing factory re-runs assembly from scratch and succeeds. -/
theorem assembly_failure_not_cached (id : String) (pl ks : Nat)
    (w : RegWorld) (e : String) (h : getA w.registry id = none) :
    useStoreF id (.error e) pl ks w = (w, .error e)
    ∧ getA (useStoreF id (.error e) pl ks w).1.registry id = none
    ∧ (useStoreF id (.ok ()) pl ks w).2 = .ok (some w.nextInst)
    ∧ (useStoreF id (.ok ()) pl ks w).1.factoryCalls = w.factoryCalls + 1 := by
  have hfail : useStoreF id (.error e) pl ks w = (w, .error e) := by
    unfold useStoreF
    rw [h]
    rfl
  have hok : useStoreF id (.ok ()) pl ks w
      = (registerStore id pl ks w, .ok (some w.nextInst)) := by
    unfold useStoreF
    rw [h]
    simp only [Option.isSome_none, Bool.false_eq_true, if_false]
    rw [registerStore_lookup]
  refine ⟨hfail, ?_, by rw [hok], by rw [hok]; rfl⟩
  rw [hfail]
  exact h

/-- Closed instantiation of the C5 theorem: a failing factory leaves the
empty world untouched and a retry with a working factory succeeds. -/
theorem assembly_failure_not_cached_witness :
    useStoreF "counter" (.error "boom") 2 3 regW0 = (regW0, .error "boom")
    ∧ getA (useStoreF "counter" (.error "boom") 2 3 regW0).1.registry "counter"
        = none
    ∧ (useStoreF "counter" (.ok ()) 2 3 regW0).2 = .ok (some 0)
    ∧ (useStoreF "counter" (.ok ()) 2 3 regW0).1.factoryCalls = 1 := by
  have h := assembly_failure_not_cached "counter" 2 3 regW0 "boom" rfl
  exact ⟨h.1, h.2.1, h.2.2.1, h.2.2.2⟩

/-- C6: along every sequence of subscribe and unsubscribe operations from
the initial store state (no subscriptions, no watcher), the state watcher
exists exactly when at least one subscription is active; in particular a
store that has never been subscribed to has no watcher. -/
theorem watcher_iff_subscribers (ops : List SubOp) :
    ((runOps ops).watcher = true ↔ (runOps ops).subs ≠ [])
    ∧ (runOps []).watcher = false := by
  constructor
  · have hinit : subInvariant ⟨[], false⟩ := by
      constructor
      · intro hc; cases hc
      · intro hc; exact absurd rfl hc
    exact subInvariant_foldl ops ⟨[], false⟩ hinit
  · rfl

theorem unsubscribeOp_of_notMem (cb : Nat) (s : SubState)
    (h : cb ∉ s.subs) : unsubscribeOp cb s = s := by
  unfold unsubscribeOp
  rw [if_neg h]

theorem unsubscribeOp_of_mem (cb : Nat) (s : SubState) (h : cb ∈ s.subs) :
    unsubscribeOp cb s
      = { subs := removeFirst cb s.subs,
          watcher := if removeFirst cb s.subs = [] ∧ s.watcher = true
            then false else s.watcher } := by
  unfold unsubscribeOp
  rw [if_pos h]

/-- C7 counterexample: the same callback subscribed twice, one unsubscribe
closure called twice. The first call removes one registration; the second
call is not a no-op, it removes the remaining registration of the callback
and stops the watcher. -/
theorem unsubscribe_second_call_not_noop :
    unsubscribeOp 7 (unsubscribeOp 7 (subscribeOp 7 (subscribeOp 7 ⟨[], false⟩)))
      ≠ unsubscribeOp 7 (subscribeOp 7 (subscribeOp 7 ⟨[], false⟩)) := by
  decide

/-- C7 amended: each call of the unsubscribe closure for a callback removes
the first remaining registration of that callback when one exists (stopping
the watcher when the list empties), and is a no-op when the callback has no
remaining registration; hence when the callback was subscribed exactly once,
every call after the first is a no-op, but with duplicate registrations a
repeated call removes further ones. -/
theorem unsubscribe_removes_first_registration (cb : Nat) (s : SubState) :
    (cb ∉ s.subs → unsubscribeOp cb s = s)
    ∧ (cb ∈ s.subs → (unsubscribeOp cb s).subs = removeFirst cb s.subs)
    ∧ (countOcc cb s.subs = 1 →
        unsubscribeOp cb (unsubscribeOp cb s) = unsubscribeOp cb s) := by
  refine ⟨unsubscribeOp_of_notMem cb s, ?_, ?_⟩
  · intro h
    rw [unsubscribeOp_of_mem cb s h]
  · intro hc
    have hm : cb ∈ s.subs := mem_of_countOcc_pos (by omega)
    have hz : countOcc cb (unsubscribeOp cb s).subs = 0 := by
      rw [unsubscribeOp_of_mem cb s hm]
      show countOcc cb (removeFirst cb s.subs) = 0
      rw [countOcc_removeFirst cb s.subs hm, hc]
    have hnm : cb ∉ (unsubscribeOp cb s).subs :=
      (countOcc_eq_zero_iff cb _).mp hz
    exact unsubscribeOp_of_notMem cb _ hnm

/-! ## Lemmas about the reset mutation sequence -/

theorem countChanged_setA_ne (st : JObj) (k : String) (v : JVal)
    (rest : JObj) (hk : k ∉ rest.map Prod.fst) :
    countChanged (setA st k v) rest = countChanged st rest := by
  induction rest with
  | nil => rfl
  | cons kv t ih =>
    have hne : kv.1 ≠ k := by
      intro he
      exact hk (by rw [List.map_cons, he]; exact List.mem_cons_self _ _)
    have ht : k ∉ t.map Prod.fst := by
      intro hm
      exact hk (by rw [List.map_cons]; exact List.mem_cons_of_mem _ hm)
    show (if getA (setA st k v) kv.1 = some kv.2 then 0 else 1)
        + countChanged (setA st k v) t
      = (if getA st kv.1 = some kv.2 then 0 else 1) + countChanged st t
    rw [getA_setA_ne st k v kv.1 hne, ih ht]

theorem assignStep_fold_length (snap : JObj) :
    ∀ (st : JObj) (evs : List JObj), (snap.map Prod.fst).Nodup →
      ((snap.foldl assignStep (st, evs)).2).length
        = evs.length + countChanged st snap := by
  induction snap with
  | nil =>
    intro st evs _
    rfl
  | cons kv rest ih =>
    intro st evs hnd
    have hk : kv.1 ∉ rest.map Prod.fst := by
      rw [List.map_cons] at hnd
      exact (List.nodup_cons.mp hnd).1
    have hrest : (rest.map Prod.fst).Nodup := by
      rw [List.map_cons] at hnd
      exact (List.nodup_cons.mp hnd).2
    rw [List.foldl_cons]
    by_cases h : getA st kv.1 = some kv.2
    · have hstep : assignStep (st, evs) kv = (st, evs) := by
        unfold assignStep
        rw [if_pos h]
      rw [hstep, ih st evs hrest]
      show evs.length + countChanged st rest
        = evs.length + ((if getA st kv.1 = some kv.2 then 0 else 1)
            + countChanged st rest)
      rw [if_pos h, Nat.zero_add]
    · have hstep : assignStep (st, evs) kv
          = (setA st kv.1 kv.2, evs ++ [setA st kv.1 kv.2]) := by
        unfold assignStep
        rw [if_neg h]
      rw [hstep, ih _ _ hrest, countChanged_setA_ne st kv.1 kv.2 rest hk]
      show (evs ++ [setA st kv.1 kv.2]).length + countChanged st rest
        = evs.length + ((if getA st kv.1 = some kv.2 then 0 else 1)
            + countChanged st rest)
      rw [if_neg h, List.length_append]
      simp only [List.length_singleton]
      omega

theorem countChanged_congr (st1 st2 snap : JObj)
    (h : ∀ kv ∈ snap, getA st1 kv.1 = getA st2 kv.1) :
    countChanged st1 snap = countChanged st2 snap := by
  induction snap with
  | nil => rfl
  | cons kv t ih =>
    obtain ⟨k, v⟩ := kv
    show (if getA st1 k = some v then 0 else 1) + countChanged st1 t
      = (if getA st2 k = some v then 0 else 1) + countChanged st2 t
    rw [h (k, v) (List.mem_cons_self _ t),
      ih (fun x hx => h x (List.mem_cons_of_mem _ hx))]

/-- The delete loop of $reset over the listed keys of a state in which every
listed key is present exactly once: it removes (with one watcher trigger
each) exactly the keys that are not own properties of the snapshot, and
leaves the value of every snapshot key untouched. -/
theorem deleteStep_fold_spec (snap : JObj) :
    ∀ (ks : List String) (st : JObj) (evs : List JObj),
      ks.Nodup → (∀ k ∈ ks, (getA st k).isSome) →
      ((ks.foldl (deleteStep snap) (st, evs)).2.length
          = evs.length + countRemoved snap ks)
      ∧ ∀ k, (getA snap k).isSome →
          getA (ks.foldl (deleteStep snap) (st, evs)).1 k = getA st k := by
  intro ks
  induction ks with
  | nil =>
    intro st evs _ _
    exact ⟨rfl, fun _ _ => rfl⟩
  | cons k0 t ih =>
    intro st evs hnd hpres
    have hk0 : (getA st k0).isSome = true :=
      hpres k0 (List.mem_cons_self k0 t)
    have hnotin : k0 ∉ t := (List.nodup_cons.mp hnd).1
    have hndt : t.Nodup := (List.nodup_cons.mp hnd).2
    rw [List.foldl_cons]
    by_cases hs : (getA snap k0).isSome
    · have hstep : deleteStep snap (st, evs) k0 = (st, evs) := by
        unfold deleteStep
        rw [if_pos hs]
      rw [hstep]
      have hprest : ∀ k ∈ t, (getA st k).isSome :=
        fun k hk => hpres k (List.mem_cons_of_mem k0 hk)
      obtain ⟨h1, h2⟩ := ih st evs hndt hprest
      refine ⟨?_, h2⟩
      rw [h1]
      show evs.length + countRemoved snap t
        = evs.length + ((if (getA snap k0).isSome then 0 else 1)
            + countRemoved snap t)
      rw [if_pos hs, Nat.zero_add]
    · have hnone : ¬ getA st k0 = none := by
        intro he
        rw [he] at hk0
        cases hk0
      have hstep : deleteStep snap (st, evs) k0
          = (delA st k0, evs ++ [delA st k0]) := by
        unfold deleteStep
        rw [if_neg hs, if_neg hnone]
      rw [hstep]
      have hprest : ∀ k ∈ t, (getA (delA st k0) k).isSome := by
        intro k hk
        have hne : k ≠ k0 := fun he => hnotin (he ▸ hk)
        rw [getA_delA_ne st k0 k hne]
        exact hpres k (List.mem_cons_of_mem k0 hk)
      obtain ⟨h1, h2⟩ := ih (delA st k0) (evs ++ [delA st k0]) hndt hprest
      constructor
      · rw [h1]
        show (evs ++ [delA st k0]).length + countRemoved snap t
          = evs.length + ((if (getA snap k0).isSome then 0 else 1)
              + countRemoved snap t)
        rw [if_neg hs, List.length_append]
        simp only [List.length_singleton]
        omega
      · intro k hksnap
        have hne : k ≠ k0 := by
          intro he
          rw [he] at hksnap
          exact hs hksnap
        rw [h2 k hksnap, getA_delA_ne st k0 k hne]

/-- C8 counterexample: a store over a:1, b:2 whose two fields were both
changed through their toRefs handles before one callback subscribed. The
single following $reset delivers two notifications to that one subscriber
(one per field the assign loop changes, the watcher being sync-flushed),
not one batched notification. -/
theorem reset_two_changes_two_notifications :
    c8Final.notifs
      = [([1], [("a", .num 1), ("b", .num 98)]),
         ([1], [("a", .num 1), ("b", .num 2)])]
    ∧ c8Final.notifs.length ≠ 1 := by
  constructor
  · rfl
  · decide

/-- C8 amended: for every store whose state and snapshot objects have
distinct keys (as every JS object does), one $reset delivers exactly one
notification per live state field it removes (the keys absent from the
snapshot) plus one per snapshot field whose value it actually changes, each
notification going to the full subscriber list in registration order; fields
already at their snapshot value produce no notification, and without a
watcher nothing is delivered. -/
theorem reset_notifies_once_per_changed_field (s : StoreSt)
    (hndSt : ((stateObj s).map Prod.fst).Nodup)
    (hndSnap : ((snapObj s).map Prod.fst).Nodup) :
    (resetStoreSt s).notifs.length
      = s.notifs.length
        + (if s.watcher
            then countRemoved (snapObj s) ((stateObj s).map Prod.fst)
              + countChanged (stateObj s) (snapObj s)
            else 0)
    ∧ ∀ p ∈ (resetStoreSt s).notifs.drop s.notifs.length, p.1 = s.subs := by
  have hpresent : ∀ k ∈ (stateObj s).map Prod.fst,
      (getA (stateObj s) k).isSome :=
    fun k hk => getA_isSome_of_mem_keys (stateObj s) k hk
  obtain ⟨hlen1, hpres⟩ := deleteStep_fold_spec (snapObj s)
    ((stateObj s).map Prod.fst) (stateObj s) [] hndSt hpresent
  have hcc : countChanged
      (((stateObj s).map Prod.fst).foldl (deleteStep (snapObj s))
        (stateObj s, [])).1 (snapObj s)
      = countChanged (stateObj s) (snapObj s) := by
    apply countChanged_congr
    intro kv hkv
    exact hpres kv.1
      (getA_isSome_of_mem_keys (snapObj s) kv.1
        (List.mem_map_of_mem Prod.fst hkv))
  have hassign := assignStep_fold_length (snapObj s)
    (((stateObj s).map Prod.fst).foldl (deleteStep (snapObj s))
      (stateObj s, [])).1
    (((stateObj s).map Prod.fst).foldl (deleteStep (snapObj s))
      (stateObj s, [])).2
    hndSnap
  have hev : (resetObj (snapObj s) (stateObj s)).2.length
      = countRemoved (snapObj s) ((stateObj s).map Prod.fst)
        + countChanged (stateObj s) (snapObj s) := by
    show ((snapObj s).foldl assignStep
        (((stateObj s).map Prod.fst).foldl (deleteStep (snapObj s))
          (stateObj s, []))).2.length
      = countRemoved (snapObj s) ((stateObj s).map Prod.fst)
        + countChanged (stateObj s) (snapObj s)
    rw [show (((stateObj s).map Prod.fst).foldl (deleteStep (snapObj s))
          (stateObj s, []))
        = ((((stateObj s).map Prod.fst).foldl (deleteStep (snapObj s))
              (stateObj s, [])).1,
           (((stateObj s).map Prod.fst).foldl (deleteStep (snapObj s))
              (stateObj s, [])).2) from rfl]
    rw [hassign, hcc, hlen1, List.length_nil, Nat.zero_add]
  unfold resetStoreSt
  by_cases hw : s.watcher = true
  · rw [if_pos hw, if_pos hw]
    constructor
    · show (s.notifs ++ (resetObj (snapObj s) (stateObj s)).2.map
          (fun o => (s.subs, o))).length = _
      rw [List.length_append, List.length_map, hev]
    · intro p hp
      rw [show (s.notifs ++ (resetObj (snapObj s) (stateObj s)).2.map
            (fun o => (s.subs, o))).drop s.notifs.length
          = (resetObj (snapObj s) (stateObj s)).2.map (fun o => (s.subs, o))
          from dropLen_append _ _] at hp
      obtain ⟨o, _, ho⟩ := List.mem_map.mp hp
      rw [← ho]
  · rw [if_neg hw, if_neg hw]
    constructor
    · show s.notifs.length = s.notifs.length + 0
      rfl
    · intro p hp
      show p.1 = s.subs
      rw [show (setStateObj s (resetObj (snapObj s) (stateObj s)).1).notifs
          = s.notifs from rfl] at hp
      rw [List.drop_length] at hp
      cases hp

/-- Closed instantiation of the C8 amended theorem at the extended scenario
store: the reset removes the added key c and changes both original fields,
so exactly one plus two notifications are appended. -/
theorem reset_notifies_once_per_changed_field_witness :
    (resetStoreSt c8StoreX).notifs.length
      = c8StoreX.notifs.length
        + (if c8StoreX.watcher
            then countRemoved (snapObj c8StoreX)
                ((stateObj c8StoreX).map Prod.fst)
              + countChanged (stateObj c8StoreX) (snapObj c8StoreX)
            else 0)
    ∧ countRemoved (snapObj c8StoreX) ((stateObj c8StoreX).map Prod.fst) = 1
    ∧ countChanged (stateObj c8StoreX) (snapObj c8StoreX) = 2 := by
  have h := reset_notifies_once_per_changed_field c8StoreX
    (by decide) (by decide)
  exact ⟨h.1, by decide, by decide⟩

/-! ## Lemmas about the plugin pipeline -/

theorem ctxIds_lower (n : Nat) :
    ∀ c0 x, x ∈ ctxIds c0 n → c0 ≤ x := by
  induction n with
  | zero => intro c0 x h; cases h
  | succ n ih =>
    intro c0 x h
    rcases List.mem_cons.mp h with h1 | h2
    · omega
    · have := ih (c0 + 1) x h2
      omega

theorem ctxIds_nodup (n : Nat) : ∀ c0, (ctxIds c0 n).Nodup := by
  induction n with
  | zero => intro c0; exact List.nodup_nil
  | succ n ih =>
    intro c0
    refine List.nodup_cons.mpr ⟨?_, ih (c0 + 1)⟩
    intro hm
    have := ctxIds_lower n (c0 + 1) c0 hm
    omega

theorem runPlugins_fold (storeRef : Nat) (sid : String) :
    ∀ (plugins : List String) (acc : List PCall) (c0 : Nat),
      plugins.foldl
        (fun (acc : List PCall × Nat) p =>
          (acc.1 ++ [⟨p, acc.2, storeRef, sid⟩], acc.2 + 1)) (acc, c0)
      = (acc ++ (plugins.zip (ctxIds c0 plugins.length)).map
            (fun pc => ⟨pc.1, pc.2, storeRef, sid⟩),
         c0 + plugins.length) := by
  intro plugins
  induction plugins with
  | nil =>
    intro acc c0
    simp [ctxIds]
  | cons p t ih =>
    intro acc c0
    rw [List.foldl_cons]
    have hpair : (((acc, c0).1
          ++ [(⟨p, (acc, c0).2, storeRef, sid⟩ : PCall)]), (acc, c0).2 + 1)
        = (acc ++ [(⟨p, c0, storeRef, sid⟩ : PCall)], c0 + 1) := rfl
    rw [hpair, ih (acc ++ [(⟨p, c0, storeRef, sid⟩ : PCall)]) (c0 + 1)]
    show _ = (acc ++ ((p :: t).zip (c0 :: ctxIds (c0 + 1) t.length)).map
        (fun pc => ⟨pc.1, pc.2, storeRef, sid⟩), c0 + (t.length + 1))
    rw [List.zip_cons_cons, List.map_cons, List.append_cons]
    simp only [List.append_nil, List.append_assoc, List.singleton_append,
      Prod.mk.injEq]
    exact ⟨trivial, by omega⟩

theorem runPlugins_spec (plugins : List String) (storeRef : Nat)
    (sid : String) (c0 : Nat) :
    runPlugins plugins storeRef sid c0
      = ((plugins.zip (ctxIds c0 plugins.length)).map
            (fun pc => ⟨pc.1, pc.2, storeRef, sid⟩),
         c0 + plugins.length) := by
  unfold runPlugins
  rw [runPlugins_fold storeRef sid plugins [] c0]
  rw [List.nil_append]

theorem map_fst_zip_ctxIds (plugins : List String) :
    ∀ c0, (plugins.zip (ctxIds c0 plugins.length)).map Prod.fst = plugins := by
  induction plugins with
  | nil => intro c0; rfl
  | cons p t ih =>
    intro c0
    show ((p :: t).zip (c0 :: ctxIds (c0 + 1) t.length)).map Prod.fst
      = p :: t
    rw [List.zip_cons_cons, List.map_cons, ih (c0 + 1)]

theorem map_snd_zip_ctxIds (plugins : List String) :
    ∀ c0, (plugins.zip (ctxIds c0 plugins.length)).map Prod.snd
      = ctxIds c0 plugins.length := by
  induction plugins with
  | nil => intro c0; rfl
  | cons p t ih =>
    intro c0
    show ((p :: t).zip (c0 :: ctxIds (c0 + 1) t.length)).map Prod.snd
      = c0 :: ctxIds (c0 + 1) t.length
    rw [List.zip_cons_cons, List.map_cons, ih (c0 + 1)]

/-- C9 counterexample: with the two plugins p1 and p2, one assembly invokes
them in order but passes two distinct freshly allocated context objects
(allocation numbers 0 and 1), so the same context object is not passed to
every plugin and a field written on the context by the first plugin is not
seen by the second. -/
theorem plugin_context_objects_distinct :
    (runPlugins ["p1", "p2"] 0 "s" 0).1
      = [⟨"p1", 0, 0, "s"⟩, ⟨"p2", 1, 0, "s"⟩]
    ∧ ¬ ∃ x, ((runPlugins ["p1", "p2"] 0 "s" 0).1.map
        (fun c => c.ctxId)) = [x, x] := by
  constructor
  · rfl
  · rintro ⟨x, hx⟩
    rw [show ((runPlugins ["p1", "p2"] 0 "s" 0).1.map (fun c => c.ctxId))
        = [0, 1] from rfl] at hx
    have h0 : (0 : Nat) = x := by
      injection hx with h1 h2
    have h1 : (1 : Nat) = x := by
      injection hx with ha hb
      injection hb with hc hd
    omega

/-- C9 amended: during one assembly the plugins run exactly once each, in
list order, after actions, state, getters and the built-in methods are
wired; every call receives a freshly allocated context object (the
allocation numbers are consecutive, hence pairwise distinct) whose store
reference and store id fields are the same for every call, so mutations of
the shared store instance are visible to later plugins while mutations of a
context object itself are not. -/
theorem plugin_pipeline_order_and_context (plugins : List String)
    (storeRef : Nat) (sid : String) (c0 : Nat) :
    setupTrace plugins storeRef sid c0
      = [.actionsWired, .stateWired, .gettersWired, .methodsWired]
        ++ ((plugins.zip (ctxIds c0 plugins.length)).map
            (fun pc => SetupEv.pluginCall ⟨pc.1, pc.2, storeRef, sid⟩))
    ∧ (runPlugins plugins storeRef sid c0).1.map (fun c => c.pname) = plugins
    ∧ (runPlugins plugins storeRef sid c0).1.map (fun c => c.ctxId)
        = ctxIds c0 plugins.length
    ∧ ((runPlugins plugins storeRef sid c0).1.map (fun c => c.ctxId)).Nodup
    ∧ ∀ c ∈ (runPlugins plugins storeRef sid c0).1,
        c.storeRef = storeRef ∧ c.sid = sid := by
  have hspec := runPlugins_spec plugins storeRef sid c0
  have hname : (runPlugins plugins storeRef sid c0).1.map (fun c => c.pname)
      = plugins := by
    rw [hspec, List.map_map]
    show (plugins.zip (ctxIds c0 plugins.length)).map Prod.fst = plugins
    exact map_fst_zip_ctxIds plugins c0
  have hctx : (runPlugins plugins storeRef sid c0).1.map (fun c => c.ctxId)
      = ctxIds c0 plugins.length := by
    rw [hspec, List.map_map]
    show (plugins.zip (ctxIds c0 plugins.length)).map Prod.snd = _
    exact map_snd_zip_ctxIds plugins c0
  refine ⟨?_, hname, hctx, ?_, ?_⟩
  · unfold setupTrace
    rw [hspec]
    simp only [List.map_map]
    rfl
  · rw [hctx]
    exact ctxIds_nodup plugins.length c0
  · intro c hc
    rw [hspec] at hc
    obtain ⟨pc, _, hpc⟩ := List.mem_map.mp hc
    rw [← hpc]
    exact ⟨rfl, rfl⟩

/-! ## The failing scenarios of the reset, snapshot and subscription claims -/

/-- C2: behaviour of the code at the claimed scenario. The store instance is
a plain object whose state fields end up holding toRefs handles, so the
writes instance.a = 99 and instance.newField = the string x land on the
instance object and never reach the reactive state; $reset rewrites only the
reactive state. Afterwards the instance still reads 99 under a and still has
newField, while the reactive state was never mutated at all: the claimed
result (reads of a:1, b:2 with newField absent) does not hold on the
assembled store. -/
theorem reset_misses_instance_writes :
    getA c2Store.inst "a" = some (.href "a")
    ∧ getA c2Final.inst "a" = some (.plain (.num 99))
    ∧ getA c2Final.inst "newField" = some (.plain (.str "x"))
    ∧ stateObj c2Final = [("a", .num 1), ("b", .num 2)]
    ∧ c2Final.notifs = [] := by
  refine ⟨rfl, rfl, rfl, rfl, rfl⟩

/-- C3: behaviour of the code at the failing input. Before any reset the
snapshot holds the deep copy n.x = 1; the first $reset assigns the snapshot
fields over the state by reference (Object.assign is shallow), so the live
state and the snapshot share the nested object afterwards; the following
nested write through the live state sets the snapshot reading of n.x to 5,
and the second $reset leaves the state at n.x = 5 instead of restoring 1. -/
theorem snapshot_corrupted_after_reset :
    readNested c3Store.heap c3Store.snapAddr "n" "x" = some (.num 1)
    ∧ getA (stateObj (resetStoreSt c3Store)) "n"
        = getA (snapObj (resetStoreSt c3Store)) "n"
    ∧ readNested c3Mid.heap c3Mid.snapAddr "n" "x" = some (.num 5)
    ∧ readNested c3Final.heap c3Final.stateAddr "n" "x" = some (.num 5) := by
  refine ⟨rfl, rfl, rfl, rfl⟩

/-- C4: behaviour of the code at the claimed scenario. After $subscribe the
watcher is installed, but the write instance.a = 5 is a plain property
assignment on the non-reactive instance object: it replaces the toRefs
handle stored under a, leaves the reactive state at a = 1, and delivers zero
notifications to the subscribed callback, where the claim expects exactly
one call carrying a = 5. -/
theorem instance_write_zero_notifications :
    c4Store.watcher = true
    ∧ getA c4Store.inst "a" = some (.href "a")
    ∧ c4Final.notifs = []
    ∧ stateObj c4Final = [("a", .num 1)]
    ∧ getA c4Final.inst "a" = some (.plain (.num 5)) := by
  refine ⟨rfl, rfl, rfl, rfl, rfl⟩
